import Mathlib

/-!
# Verification of `synu.py`

A shallow embedding of the snapshot/backup CLI `synu.py` (commands
`init`, `backup`, `restore`, `downgrade`) together with proofs about it.

Modelling conventions:
* Filesystem paths are lists of segments (`Path := List String`);
  file contents are byte lists (`Bytes := List Nat`).
* A project tree is a flat description `FS`: the list of its (non-root)
  directories and the list of its files with contents.  `os.walk` visits
  every directory once, which `walkRoots` reflects.
* The Python test `CONFIG_FOLDER in root` is a substring test on the
  path string joined with the separator.  Since the folder name ".sync"
  contains no separator character, the substring occurs in the joined
  string iff it occurs inside a single segment, which is how
  `pathHasSync` is stated.
* ZIP archives are lists of entries; a directory entry corresponds to a
  name with a trailing slash (`zipf.writestr(rel_root + '/', '')`), a
  file entry carries its bytes.  `extractall` recreates every entry and
  the parent directories of each created path (`entryAncestors`).
* Stateful code is modelled by explicit state passing; `raise
  click.ClickException` becomes an `Except`-style error value, and the
  code after a raise is not reached, so erroring branches return the
  incoming state unchanged, exactly as the Python does.
-/

namespace Synu

abbrev Path := List String

abbrev Bytes := List Nat

/-- `CONFIG_FOLDER = ".sync"` (line 10 of `synu.py`), as a character list. -/
def syncName : List Char := ['.', 's', 'y', 'n', 'c']

/-- Boolean substring test on character lists: `needle` occurs
contiguously inside `hay`.  Models Python's `needle in hay` on strings. -/
def hasInfixChars (needle : List Char) : List Char → Bool
  | [] => needle.isEmpty
  | c :: t => needle.isPrefixOf (c :: t) || hasInfixChars needle t

/-- Does one path segment contain ".sync" as a substring? -/
def segHasSync (s : String) : Bool := hasInfixChars syncName s.data

/-- Python's `CONFIG_FOLDER in root` where `root` is the path joined with
the separator: since ".sync" contains no separator, this holds iff some
segment contains ".sync" as a substring. -/
def pathHasSync (p : Path) : Bool := p.any segHasSync

/-- A project tree, flattened: the relative paths of all of its
directories below the root ([] is the root itself and is not listed),
and all of its files with their byte contents. -/
structure FS where
  dirs : List Path
  files : List (Path × Bytes)
deriving DecidableEq

/-- Well-formedness of a flattened tree: directory paths are non-empty
and closed under taking the parent, and every file's parent directory is
the root or a listed directory. -/
structure WellFormed (fs : FS) : Prop where
  dirs_ne : ∀ d ∈ fs.dirs, d ≠ []
  dirs_closed : ∀ d ∈ fs.dirs, d.dropLast = [] ∨ d.dropLast ∈ fs.dirs
  files_ne : ∀ pc ∈ fs.files, pc.1 ≠ []
  files_parent : ∀ pc ∈ fs.files, pc.1.dropLast = [] ∨ pc.1.dropLast ∈ fs.dirs

/-- The directories visited by `os.walk(current)` (line 86), as paths
relative to the root: the root itself (`[]`, i.e. `rel_root = "."`),
then every directory of the tree. -/
def walkRoots (fs : FS) : List Path := [] :: fs.dirs

/-- The files lying directly in directory `d` (the `files` component of
one `os.walk` step). -/
def filesUnder (fs : FS) (d : Path) : List (Path × Bytes) :=
  fs.files.filter (fun pc => decide (pc.1.dropLast = d))

/-- One ZIP archive member: a directory entry (a name with a trailing
slash and empty data, line 91) or a file entry with its bytes
(lines 97/99). -/
inductive ZipEntry
  | dir (p : Path)
  | file (p : Path) (data : Bytes)
deriving DecidableEq

/-- Line 90-91: the root (`rel_root = "."`) gets no directory entry,
every other visited directory gets one. -/
def dirEntryList (d : Path) : List ZipEntry :=
  if d = [] then [] else [ZipEntry.dir d]

/-- Lines 96-99: a zero-size file is written with `writestr(rel_path,
'')`, any other file with `zipf.write`, so the entry's data is the
file's bytes either way. -/
def fileData (c : Bytes) : Bytes := if c.length = 0 then [] else c

/-- Lines 85-99 of `backup`: walk the tree rooted at the absolute path
`rootAbs`; skip any visited directory whose absolute path contains
".sync" as a substring (line 87, `if CONFIG_FOLDER in root: continue`);
otherwise emit its directory entry and one file entry per file directly
inside it. -/
def createArchive (rootAbs : Path) (fs : FS) : List ZipEntry :=
  (walkRoots fs).flatMap (fun d =>
    if pathHasSync (rootAbs ++ d) then []
    else dirEntryList d ++
      (filesUnder fs d).map (fun pc => ZipEntry.file pc.1 (fileData pc.2)))

/-- All non-empty prefixes of a path: the chain of directories
`os.makedirs` creates when asked for this path. -/
def nonemptyPrefixes (p : Path) : List Path :=
  (List.range p.length).map (fun k => p.take (k + 1))

/-- The directories `extractall` creates for one entry: for a directory
entry the directory itself and its ancestors, for a file entry the
ancestors of the file's location. -/
def entryAncestors : ZipEntry → List Path
  | .dir d => nonemptyPrefixes d
  | .file p _ => nonemptyPrefixes p.dropLast

/-- The set of directories present after `extractall` into an empty
target (line 137). -/
def extractDirs (es : List ZipEntry) : List Path := es.flatMap entryAncestors

/-- The files (with contents) present after `extractall` into an empty
target. -/
def extractFiles (es : List ZipEntry) : List (Path × Bytes) :=
  es.flatMap (fun e => match e with | .dir _ => [] | .file p b => [(p, b)])

/-- Does the archive write a file at path `p`? -/
def writesPath (es : List ZipEntry) (p : Path) : Bool :=
  es.any (fun e => match e with | .dir _ => false | .file q _ => decide (q = p))

/-- `extractall` into a possibly non-empty directory: directories are
added, existing files at extracted paths are overwritten, everything
else is untouched. -/
def applyArchive (proj : FS) (es : List ZipEntry) : FS :=
  { dirs := proj.dirs ++ (extractDirs es).filter (fun d => decide (d ∉ proj.dirs)),
    files := proj.files.filter (fun pc => !writesPath es pc.1) ++ extractFiles es }

/-- The per-project configuration, `.sync/config.json` (lines 59-63). -/
structure Config where
  project_name : String
  identifier : String
  usb_path : String
deriving DecidableEq

/-- The four handled failure kinds (§7 of the documentation), one per
`raise click.ClickException` site of `synu.py`. -/
inductive SynuErr
  | notInitialized
  | noUsbConfigured
  | noSnapshotsFound
  | snapshotNotFound (name : String)
deriving DecidableEq

/-- Model of `os.path.abspath` relative to the working directory `cwd`:
an already-absolute path is kept, a relative one is resolved against
`cwd` (path normalization is not modelled; no claim depends on it). -/
def abspath (cwd p : String) : String :=
  if p.startsWith "/" then p else cwd ++ "/" ++ p

/-- Python truthiness of the optional `--path` argument: `None` and the
empty string are both falsy in `if provided_path:` (line 33). -/
def truthy : Option String → Bool
  | none => false
  | some s => decide (s ≠ "")

/-- Lines 28-41, `get_usb_path(current, provided_path)`: fail if the
project is not initialized; if a truthy path is provided, store its
absolute form in the config and return it; otherwise return the
remembered path, failing if it is unset or empty.  The second component
is the config stored on disk afterwards. -/
def get_usb_path (cwd : String) (cfg : Option Config) (provided : Option String) :
    Except SynuErr String × Option Config :=
  match cfg with
  | none => (.error .notInitialized, none)
  | some c =>
    if truthy provided then
      let newPath := abspath cwd (provided.getD "")
      (.ok newPath, some { c with usb_path := newPath })
    else if c.usb_path ≠ "" then (.ok c.usb_path, some c)
    else (.error .noUsbConfigured, some c)

/-- Line 78: `snapshot_name = f"{config['project_name']}_{now}.zip"`. -/
def mkSnapName (projectName now : String) : String :=
  projectName ++ "_" ++ now ++ ".zip"

/-- The timestamp embedded in a snapshot filename
`{projectName}_{YYYYMMDD_HHMMSS}.zip`: the 15 characters after the
project name and the underscore. -/
def embeddedTimestamp (projectName name : String) : String :=
  String.mk ((name.data.drop (projectName.length + 1)).take 15)

/-- One history entry (line 113). -/
structure HEntry where
  snapshot : String
  message : String
  timestamp : String
deriving DecidableEq

/-- The state of the external path: the snapshot directory
(`<usb>/snapshots`) as `none` when absent or the list of its entries
(filename and archived contents), and the history file
(`<usb>/.sync/history.json`) as `none` when absent or its entry list. -/
structure UsbState where
  snapshots : Option (List (String × List ZipEntry))
  history : Option (List HEntry)

/-- `shutil.copy` of an archive into the snapshot directory (line 104):
a file write that replaces any existing entry of the same name. -/
def copySnap (entries : List (String × List ZipEntry)) (name : String)
    (arch : List ZipEntry) : List (String × List ZipEntry) :=
  entries.filter (fun e => decide (e.1 ≠ name)) ++ [(name, arch)]

/-- What `init` echoes (lines 55 and 65). -/
inductive InitOutcome
  | alreadyInitialized
  | created (name ident : String)
deriving DecidableEq

/-- The on-disk state of a project directory that `init` looks at. -/
structure ProjMeta where
  syncDirExists : Bool
  snapshotsDirExists : Bool
  config : Option Config
deriving DecidableEq

/-- Lines 48-65, `init`: if the metadata directory exists, do nothing
and report so; otherwise create `.sync/snapshots`, generate an
identifier (`freshId` stands for `str(uuid.uuid4())`, nondeterministic
input of the model) and write the config with the working directory's
base name and an empty external path. -/
def init (baseName freshId : String) (st : ProjMeta) : ProjMeta × InitOutcome :=
  if st.syncDirExists then (st, .alreadyInitialized)
  else ({ syncDirExists := true, snapshotsDirExists := true,
          config := some ⟨baseName, freshId, ""⟩ },
        .created baseName freshId)

/-- Lines 67-117, `backup`: resolve the external path (possibly storing
a new one), rebuild the snapshot name from the reloaded config (line
76-78), archive the tree (`createArchive`), copy the archive to the
external snapshot directory (creating it if absent) and append one
history entry (missing history file read as `[]`).  Returns the command
result, the stored config, and the new external state.  The local copy
under `.sync/snapshots` lies outside the modelled project tree (the
metadata subtree is skipped by the walk) and is not tracked. -/
def backup (cwd msg now : String) (rootAbs : Path) (cfg : Option Config)
    (provided : Option String) (proj : FS) (usb : UsbState) :
    Except SynuErr String × Option Config × UsbState :=
  match get_usb_path cwd cfg provided with
  | (.error e, st) => (.error e, st, usb)
  | (.ok _, st) =>
    match st with
    | none => (.error .notInitialized, none, usb)
    | some c =>
      let name := mkSnapName c.project_name now
      let arch := createArchive rootAbs proj
      (.ok name, some c,
       { snapshots := some (copySnap (usb.snapshots.getD []) name arch),
         history := some ((usb.history.getD []) ++ [⟨name, msg, now⟩]) })

/-- A computation-friendly decision procedure for `≤` on `String`
( comparison of the character lists, which is what Python's string
comparison does code point by code point). -/
def strLeDec : DecidableRel (α := String) (· ≤ ·) := fun a b =>
  decidable_of_iff (¬ b.toList < a.toList) (by rw [← String.lt_iff_toList_lt]; exact not_lt)

/-- `sorted(os.listdir(snapshots_dir), reverse=True)[0]` (lines
131-135): sort the names and take the greatest, `none` when the listing
is empty.  (String `≤` is a linear order, so any sorting algorithm
produces the same list as Python's `sorted`; `reverse=True` then takes
the last element of the ascending order.) -/
def selectLatest (names : List String) : Option String :=
  (@List.insertionSort String (· ≤ ·) strLeDec names).reverse.head?

/-- Lines 119-139, `restore`: resolve the external path, fail when the
snapshot directory is absent or empty, otherwise extract the
lexicographically greatest entry into the project directory.  Returns
the result (the extracted name), the project tree afterwards, and the
stored config.  `usbAt` gives the external state found at a path. -/
def restore (cwd : String) (cfg : Option Config) (provided : Option String)
    (proj : FS) (usbAt : String → UsbState) :
    Except SynuErr String × FS × Option Config :=
  match get_usb_path cwd cfg provided with
  | (.error e, st) => (.error e, proj, st)
  | (.ok up, st) =>
    match (usbAt up).snapshots with
    | none => (.error .noSnapshotsFound, proj, st)
    | some entries =>
      match selectLatest (entries.map Prod.fst) with
      | none => (.error .noSnapshotsFound, proj, st)
      | some latest =>
        match List.lookup latest entries with
        | some arch => (.ok latest, applyArchive proj arch, st)
        | none => (.error .noSnapshotsFound, proj, st)

/-- Lines 141-157, `downgrade`: resolve the external path, fail with
`SnapshotNotFound` when the named file does not exist in the external
snapshot directory (also when that directory itself is absent),
otherwise extract it into the project directory. -/
def downgrade (cwd : String) (cfg : Option Config) (provided : Option String)
    (snap : String) (proj : FS) (usbAt : String → UsbState) :
    Except SynuErr String × FS × Option Config :=
  match get_usb_path cwd cfg provided with
  | (.error e, st) => (.error e, proj, st)
  | (.ok up, st) =>
    match List.lookup snap ((usbAt up).snapshots.getD []) with
    | none => (.error (.snapshotNotFound snap), proj, st)
    | some arch => (.ok snap, applyArchive proj arch, st)

/-! ## General lemmas about the archiver -/

theorem pathHasSync_append (a b : Path) :
    pathHasSync (a ++ b) = (pathHasSync a || pathHasSync b) :=
  List.any_append

theorem fileData_eq (c : Bytes) : fileData c = c := by
  cases c <;> simp [fileData]

theorem mem_createArchive_dir {rootAbs : Path} {fs : FS} {d : Path} :
    ZipEntry.dir d ∈ createArchive rootAbs fs ↔
      d ∈ walkRoots fs ∧ d ≠ [] ∧ pathHasSync (rootAbs ++ d) = false := by
  simp only [createArchive, List.mem_flatMap]
  constructor
  · rintro ⟨d', hd', he⟩
    by_cases hs : pathHasSync (rootAbs ++ d') = true
    · simp [hs] at he
    · rw [if_neg (by simp [hs])] at he
      rcases List.mem_append.mp he with hdir | hfile
      · unfold dirEntryList at hdir
        by_cases hd0 : d' = []
        · rw [if_pos hd0] at hdir; cases hdir
        · rw [if_neg hd0] at hdir
          injection List.mem_singleton.mp hdir with h
          subst h
          exact ⟨hd', hd0, Bool.eq_false_iff.mpr hs⟩
      · rcases List.mem_map.mp hfile with ⟨pc, _, hpc⟩
        exact absurd hpc (by simp)
  · rintro ⟨hd, hne, hs⟩
    refine ⟨d, hd, ?_⟩
    rw [if_neg (by simp [hs])]
    refine List.mem_append.mpr (Or.inl ?_)
    unfold dirEntryList
    rw [if_neg hne]
    exact List.mem_singleton.mpr rfl

theorem mem_createArchive_file {rootAbs : Path} {fs : FS} {p : Path} {b : Bytes} :
    ZipEntry.file p b ∈ createArchive rootAbs fs ↔
      p.dropLast ∈ walkRoots fs ∧ pathHasSync (rootAbs ++ p.dropLast) = false ∧
        (p, b) ∈ fs.files := by
  simp only [createArchive, List.mem_flatMap]
  constructor
  · rintro ⟨d', hd', he⟩
    by_cases hs : pathHasSync (rootAbs ++ d') = true
    · simp [hs] at he
    · rw [if_neg (by simp [hs])] at he
      rcases List.mem_append.mp he with hdir | hfile
      · unfold dirEntryList at hdir
        by_cases hd0 : d' = []
        · rw [if_pos hd0] at hdir; cases hdir
        · rw [if_neg hd0] at hdir
          cases List.mem_singleton.mp hdir
      · rcases List.mem_map.mp hfile with ⟨pc, hpc, heq⟩
        rw [fileData_eq] at heq
        injection heq with h1 h2
        subst h1; subst h2
        have hf := List.mem_filter.mp hpc
        have hd : pc.1.dropLast = d' := of_decide_eq_true hf.2
        rw [hd]
        exact ⟨hd', Bool.eq_false_iff.mpr hs, hf.1⟩
  · rintro ⟨hw, hs, hf⟩
    refine ⟨p.dropLast, hw, ?_⟩
    rw [if_neg (by simp [hs])]
    refine List.mem_append.mpr (Or.inr ?_)
    refine List.mem_map.mpr ⟨(p, b), ?_, by rw [fileData_eq]⟩
    exact List.mem_filter.mpr ⟨hf, by simp⟩

theorem mem_nonemptyPrefixes {p q : Path} :
    p ∈ nonemptyPrefixes q ↔ ∃ k, k < q.length ∧ p = q.take (k + 1) := by
  simp only [nonemptyPrefixes, List.mem_map, List.mem_range]
  constructor
  · rintro ⟨k, hk, rfl⟩; exact ⟨k, hk, rfl⟩
  · rintro ⟨k, hk, rfl⟩; exact ⟨k, hk, rfl⟩

theorem self_mem_nonemptyPrefixes {q : Path} (h : q ≠ []) : q ∈ nonemptyPrefixes q := by
  rw [mem_nonemptyPrefixes]
  refine ⟨q.length - 1, ?_, ?_⟩
  · have := List.length_pos.mpr h
    omega
  · have := List.length_pos.mpr h
    have hl : q.length - 1 + 1 = q.length := by omega
    rw [hl, List.take_length]

theorem mem_extractFiles {es : List ZipEntry} {p : Path} {b : Bytes} :
    (p, b) ∈ extractFiles es ↔ ZipEntry.file p b ∈ es := by
  simp only [extractFiles, List.mem_flatMap]
  constructor
  · rintro ⟨e, he, hm⟩
    cases e with
    | dir d => cases hm
    | file q c =>
      have := List.mem_singleton.mp hm
      injection this with h1 h2
      subst h1; subst h2
      exact he
  · intro h
    exact ⟨ZipEntry.file p b, h, List.mem_singleton.mpr rfl⟩

/-- In a well-formed tree, every non-empty prefix of a directory path is
again a directory (iterated parent closure). -/
theorem take_mem_dirs {fs : FS} (hwf : WellFormed fs) :
    ∀ n (d : Path), d ∈ fs.dirs → d.length ≤ n →
      ∀ k, k < d.length → d.take (k + 1) ∈ fs.dirs := by
  intro n
  induction n with
  | zero => intro d _ hlen k hk; omega
  | succ n ih =>
    intro d hd hlen k hk
    by_cases hkl : k + 1 = d.length
    · rw [hkl, List.take_length]; exact hd
    · have hk1 : k + 1 < d.length := by omega
      have hdl : d.dropLast ∈ fs.dirs := by
        rcases hwf.dirs_closed d hd with h | h
        · have : d.dropLast.length = d.length - 1 := List.length_dropLast d
          rw [h] at this
          simp at this
          omega
        · exact h
      have heq : d.take (k + 1) = d.dropLast.take (k + 1) := by
        rw [List.dropLast_eq_take, List.take_take,
          Nat.min_eq_left (by omega)]
      rw [heq]
      exact ih d.dropLast hdl
        (by rw [List.length_dropLast]; omega) k
        (by rw [List.length_dropLast]; omega)

/-- **C1.** For every valid project tree (well-formed, and no path of the
tree nor the project root's own absolute path contains the
metadata-folder name ".sync" as a substring), creating the backup
archive and extracting it into an empty target reproduces exactly the
tree's directory set and its file set with byte contents — including
zero-byte files and empty directories. -/
theorem backup_extract_roundtrip (rootAbs : Path) (fs : FS)
    (hwf : WellFormed fs)
    (hroot : pathHasSync rootAbs = false)
    (hdirs : ∀ d ∈ fs.dirs, pathHasSync d = false)
    (hfiles : ∀ pc ∈ fs.files, pathHasSync pc.1 = false) :
    (∀ p, p ∈ extractDirs (createArchive rootAbs fs) ↔ p ∈ fs.dirs) ∧
    (∀ p c, (p, c) ∈ extractFiles (createArchive rootAbs fs) ↔ (p, c) ∈ fs.files) := by
  have hskip : ∀ d ∈ walkRoots fs, pathHasSync (rootAbs ++ d) = false := by
    intro d hd
    rw [pathHasSync_append, hroot]
    rcases List.mem_cons.mp hd with rfl | hd'
    · rfl
    · rw [hdirs d hd']; rfl
  constructor
  · intro p
    constructor
    · intro hp
      rcases List.mem_flatMap.mp hp with ⟨e, he, hanc⟩
      cases e with
      | dir d =>
        rcases mem_createArchive_dir.mp he with ⟨hdw, hdne, _⟩
        have hdd : d ∈ fs.dirs := by
          rcases List.mem_cons.mp hdw with rfl | h
          · exact absurd rfl hdne
          · exact h
        rcases mem_nonemptyPrefixes.mp hanc with ⟨k, hk, rfl⟩
        exact take_mem_dirs hwf d.length d hdd le_rfl k hk
      | file q b =>
        rcases mem_createArchive_file.mp he with ⟨hqw, _, _⟩
        rcases mem_nonemptyPrefixes.mp hanc with ⟨k, hk, rfl⟩
        have hqne : q.dropLast ≠ [] := by
          intro h0
          rw [h0] at hk
          simp at hk
        have hqd : q.dropLast ∈ fs.dirs := by
          rcases List.mem_cons.mp hqw with h | h
          · exact absurd h hqne
          · exact h
        exact take_mem_dirs hwf q.dropLast.length q.dropLast hqd le_rfl k hk
    · intro hp
      refine List.mem_flatMap.mpr ⟨ZipEntry.dir p, ?_, ?_⟩
      · refine mem_createArchive_dir.mpr
          ⟨List.mem_cons.mpr (Or.inr hp), hwf.dirs_ne p hp,
            hskip p (List.mem_cons.mpr (Or.inr hp))⟩
      · exact self_mem_nonemptyPrefixes (hwf.dirs_ne p hp)
  · intro p c
    rw [mem_extractFiles, mem_createArchive_file]
    constructor
    · rintro ⟨_, _, hf⟩; exact hf
    · intro hf
      have hw : p.dropLast ∈ walkRoots fs := by
        rcases hwf.files_parent (p, c) hf with h | h
        · rw [h]; exact List.mem_cons.mpr (Or.inl rfl)
        · exact List.mem_cons.mpr (Or.inr h)
      exact ⟨hw, hskip _ hw, hf⟩

/-- Witness for C1 at a concrete tree with an empty directory
(`["a","empty"]`), a zero-byte file and a non-empty file. -/
theorem backup_extract_roundtrip_witness :
    (["a", "empty"] ∈
        extractDirs (createArchive ["home", "proj"]
          ⟨[["a"], ["a", "empty"]], [(["f.txt"], [104, 105]), (["a", "z.bin"], [])]⟩) ↔
      ["a", "empty"] ∈ ([[["a"]], [["a", "empty"]]].flatten : List Path)) ∧
    ((["a", "z.bin"], ([] : Bytes)) ∈
        extractFiles (createArchive ["home", "proj"]
          ⟨[["a"], ["a", "empty"]], [(["f.txt"], [104, 105]), (["a", "z.bin"], [])]⟩) ↔
      (["a", "z.bin"], ([] : Bytes)) ∈
        [(["f.txt"], ([104, 105] : Bytes)), (["a", "z.bin"], ([] : Bytes))]) := by
  have h := backup_extract_roundtrip ["home", "proj"]
    ⟨[["a"], ["a", "empty"]], [(["f.txt"], [104, 105]), (["a", "z.bin"], [])]⟩
    ⟨by decide, by decide, by decide, by decide⟩ (by decide) (by decide) (by decide)
  exact ⟨by simpa using h.1 ["a", "empty"], h.2 ["a", "z.bin"] []⟩

/-- **C3, counterexample.** The claim "every subtree whose path contains
'.sync' as a substring is excluded from the archive (e.g. a directory
named 'resync' is also skipped)" is false on the code: a file whose own
name contains ".sync" but whose directory path is clean *is* archived,
and a directory named "resync" is *not* skipped — ".sync" (with the
leading dot) is not a substring of "resync". -/
theorem createArchive_exclusion_cex :
    pathHasSync ["a.sync"] = true ∧
    ZipEntry.file ["a.sync"] [1] ∈
      createArchive ["r"] ⟨[], [(["a.sync"], [1])]⟩ ∧
    segHasSync "resync" = false ∧
    ZipEntry.dir ["resync"] ∈ createArchive ["r"] ⟨[["resync"]], []⟩ := by
  decide

/-- **C3, amended.** During snapshot creation, exclusion is decided by
the substring test on the *visited directory's* absolute path only: a
directory entry is produced iff the directory is in the tree and its
absolute path does not contain ".sync" as a substring, and a file entry
is produced iff the file is in the tree and its *parent directory's*
absolute path does not contain ".sync" (the file's own name is never
tested); no other paths are excluded. -/
theorem createArchive_exclusion (rootAbs : Path) (fs : FS) (hwf : WellFormed fs) :
    (∀ d, ZipEntry.dir d ∈ createArchive rootAbs fs ↔
      d ∈ fs.dirs ∧ pathHasSync (rootAbs ++ d) = false) ∧
    (∀ p b, ZipEntry.file p b ∈ createArchive rootAbs fs ↔
      (p, b) ∈ fs.files ∧ pathHasSync (rootAbs ++ p.dropLast) = false) := by
  constructor
  · intro d
    rw [mem_createArchive_dir]
    constructor
    · rintro ⟨hw, hne, hs⟩
      rcases List.mem_cons.mp hw with rfl | h
      · exact absurd rfl hne
      · exact ⟨h, hs⟩
    · rintro ⟨hd, hs⟩
      exact ⟨List.mem_cons.mpr (Or.inr hd), hwf.dirs_ne d hd, hs⟩
  · intro p b
    rw [mem_createArchive_file]
    constructor
    · rintro ⟨_, hs, hf⟩
      exact ⟨hf, hs⟩
    · rintro ⟨hf, hs⟩
      have hw : p.dropLast ∈ walkRoots fs := by
        rcases hwf.files_parent (p, b) hf with h | h
        · rw [h]; exact List.mem_cons.mpr (Or.inl rfl)
        · exact List.mem_cons.mpr (Or.inr h)
      exact ⟨hw, hs, hf⟩

/-- Witness for the amended C3: in a tree holding a genuine `.sync`
directory with a file inside, plus a `resync` directory with a file
inside, the archive keeps all of `resync` and drops all of `.sync`. -/
theorem createArchive_exclusion_witness :
    (ZipEntry.dir [".sync"] ∈
        createArchive ["r"] ⟨[[".sync"], ["resync"]],
          [([".sync", "cfg"], [1]), (["resync", "f"], [2])]⟩ ↔
      ([".sync"] ∈ ([[[".sync"]], [["resync"]]].flatten : List Path)) ∧
        pathHasSync (["r"] ++ [".sync"]) = false) ∧
    (ZipEntry.file ["resync", "f"] [2] ∈
        createArchive ["r"] ⟨[[".sync"], ["resync"]],
          [([".sync", "cfg"], [1]), (["resync", "f"], [2])]⟩ ↔
      ((["resync", "f"], ([2] : Bytes)) ∈
          [([".sync", "cfg"], ([1] : Bytes)), (["resync", "f"], ([2] : Bytes))]) ∧
        pathHasSync (["r"] ++ (["resync", "f"] : Path).dropLast) = false) := by
  have h := createArchive_exclusion ["r"]
    ⟨[[".sync"], ["resync"]], [([".sync", "cfg"], [1]), (["resync", "f"], [2])]⟩
    ⟨by decide, by decide, by decide, by decide⟩
  exact ⟨by simpa using h.1 [".sync"], h.2 ["resync", "f"] [2]⟩

/-! ## Lexicographic order lemmas for snapshot names -/

theorem list_lt_cons_same {α : Type} [LinearOrder α] (x : α) (u v : List α) :
    x :: u < x :: v ↔ u < v := by
  constructor
  · intro h
    cases h with
    | cons h => exact h
    | rel h => exact absurd h (lt_irrefl x)
  · exact List.Lex.cons

theorem list_lt_append_left {α : Type} [LinearOrder α] (u a b : List α) :
    u ++ a < u ++ b ↔ a < b := by
  induction u with
  | nil => rfl
  | cons x t ih => rw [List.cons_append, List.cons_append, list_lt_cons_same, ih]

theorem list_lt_append_suffix {α : Type} [LinearOrder α] (z : List α) :
    ∀ (a b : List α), a.length = b.length → (a ++ z < b ++ z ↔ a < b) := by
  intro a
  induction a with
  | nil =>
    intro b hb
    have hbn : b = [] := by
      cases b with
      | nil => rfl
      | cons y t => simp at hb
    subst hbn
    simp only [List.nil_append]
    constructor
    · intro h; exact absurd h (lt_irrefl z)
    · intro h; cases h
  | cons x t ih =>
    intro b hb
    cases b with
    | nil => simp at hb
    | cons y s =>
      simp only [List.length_cons, Nat.succ.injEq] at hb
      constructor
      · intro h
        rw [List.cons_append, List.cons_append] at h
        cases h with
        | rel h => exact List.Lex.rel h
        | cons h => exact List.Lex.cons ((ih s hb).mp h)
      · intro h
        cases h with
        | rel h => exact List.Lex.rel h
        | cons h => exact List.Lex.cons ((ih s hb).mpr h)

/-- With a common project name and equal-length timestamps, comparing
snapshot filenames is the same as comparing the embedded timestamps:
lexicographic order of the names equals chronological order. -/
theorem mkSnapName_le_iff (proj : String) {t1 t2 : String} (h : t1.length = t2.length) :
    (mkSnapName proj t1 ≤ mkSnapName proj t2) ↔ t1 ≤ t2 := by
  have hml : ∀ t : String, (mkSnapName proj t).toList
      = (proj.toList ++ "_".toList) ++ (t.toList ++ ".zip".toList) := by
    intro t
    show (proj ++ "_" ++ t ++ ".zip").data = _
    rw [String.data_append, String.data_append, String.data_append]
    simp [String.toList, List.append_assoc]
  rw [String.le_iff_toList_le, hml, hml, ← not_lt, ← not_lt]
  apply not_congr
  rw [list_lt_append_left, list_lt_append_suffix _ _ _ (by
    show t2.toList.length = t1.toList.length
    have h2 : t2.toList.length = t2.length := rfl
    have h1 : t1.toList.length = t1.length := rfl
    omega)]
  exact (String.lt_iff_toList_lt).symm

/-- `sorted(names, reverse=True)[0]` of a non-empty listing is a maximum
of the listing. -/
theorem selectLatest_spec (names : List String) (h : names ≠ []) :
    ∃ m, selectLatest names = some m ∧ m ∈ names ∧ ∀ x ∈ names, x ≤ m := by
  have hperm := @List.perm_insertionSort String (· ≤ ·) strLeDec names
  have hsort := @List.sorted_insertionSort String (· ≤ ·) strLeDec
    ⟨le_total⟩ ⟨fun _ _ _ => le_trans⟩ names
  set s := @List.insertionSort String (· ≤ ·) strLeDec names with hs
  have hne : s ≠ [] := by
    intro h0
    rw [h0] at hperm
    exact h hperm.symm.eq_nil
  refine ⟨s.getLast hne, ?_, ?_, ?_⟩
  · show s.reverse.head? = _
    rw [List.head?_reverse, List.getLast?_eq_getLast_of_ne_nil hne]
  · exact hperm.subset (List.getLast_mem hne)
  · intro x hx
    have hxs : x ∈ s := hperm.symm.subset hx
    obtain ⟨⟨i, hi⟩, hget⟩ := List.mem_iff_get.mp hxs
    have hlast : s.getLast hne = s[s.length - 1] := List.getLast_eq_getElem s hne
    have hle : (⟨i, hi⟩ : Fin s.length) ≤ ⟨s.length - 1, by omega⟩ := by
      show i ≤ s.length - 1
      omega
    have hrel := @List.Sorted.rel_get_of_le String (· ≤ ·) ⟨le_refl⟩ s hsort
      ⟨i, hi⟩ ⟨s.length - 1, by omega⟩ hle
    rw [hget] at hrel
    rw [hlast]
    simpa using hrel

theorem lookup_some_of_mem_fst {β : Type} {l : List (String × β)} {a : String}
    (h : a ∈ l.map Prod.fst) : ∃ v, List.lookup a l = some v := by
  induction l with
  | nil => simp at h
  | cons e t ih =>
    by_cases he : a = e.1
    · exact ⟨e.2, by simp [List.lookup, he]⟩
    · have hmem : a ∈ t.map Prod.fst := by
        rcases List.mem_cons.mp h with h0 | h0
        · exact absurd h0 he
        · exact h0
      obtain ⟨v, hv⟩ := ih hmem
      refine ⟨v, ?_⟩
      have hbeq : (a == e.1) = false := beq_eq_false_iff_ne.mpr he
      simp [List.lookup, hbeq, hv]

/-- **C2.** On a non-empty external snapshot directory whose entries
follow the timestamp-embedded naming scheme
`{projName}_{YYYYMMDD_HHMMSS}.zip`, `restore` — which sorts the entry
names in reverse lexicographic order and takes the first — extracts the
snapshot with the greatest (most recent) embedded timestamp. -/
theorem restore_selects_most_recent
    (cwd up : String) (cfg st : Option Config) (provided : Option String) (proj : FS)
    (usbAt : String → UsbState) (entries : List (String × List ZipEntry))
    (projName : String) (tss : List String)
    (hres : get_usb_path cwd cfg provided = (.ok up, st))
    (hsnap : (usbAt up).snapshots = some entries)
    (hnames : entries.map Prod.fst = tss.map (mkSnapName projName))
    (hne : tss ≠ [])
    (hlen : ∀ t ∈ tss, t.length = 15) :
    ∃ t ∈ tss, (∀ t' ∈ tss, t' ≤ t) ∧
      ∃ arch, List.lookup (mkSnapName projName t) entries = some arch ∧
        restore cwd cfg provided proj usbAt =
          (.ok (mkSnapName projName t), applyArchive proj arch, st) := by
  have hnames_ne : entries.map Prod.fst ≠ [] := by
    rw [hnames]
    cases tss with
    | nil => exact absurd rfl hne
    | cons a l => simp
  obtain ⟨m, hsel, hmem, hmax⟩ := selectLatest_spec _ hnames_ne
  have hmem' := hmem
  rw [hnames] at hmem'
  obtain ⟨t, htss, hmt⟩ := List.mem_map.mp hmem'
  subst hmt
  refine ⟨t, htss, ?_, ?_⟩
  · intro t' ht'
    have hle : mkSnapName projName t' ≤ mkSnapName projName t := by
      refine hmax _ ?_
      rw [hnames]
      exact List.mem_map.mpr ⟨t', ht', rfl⟩
    exact (mkSnapName_le_iff projName (by rw [hlen t' ht', hlen t htss])).mp hle
  · obtain ⟨arch, harch⟩ := lookup_some_of_mem_fst (l := entries) hmem
    refine ⟨arch, harch, ?_⟩
    unfold restore
    simp only [hres, hsnap, hsel, harch]

/-- Witness for C2: two snapshots of project "demo"; restore picks the
one with the later timestamp. -/
theorem restore_selects_most_recent_witness :
    ∃ t ∈ ["20240102_090000", "20240101_120000"],
      (∀ t' ∈ ["20240102_090000", "20240101_120000"], t' ≤ t) ∧
      ∃ arch, List.lookup (mkSnapName "demo" t)
          [("demo_20240102_090000.zip", ([] : List ZipEntry)),
           ("demo_20240101_120000.zip", ([ZipEntry.dir ["a"]] : List ZipEntry))] = some arch ∧
        restore "/h" (some ⟨"demo", "id1", "/usb"⟩) none ⟨[], []⟩
            (fun _ =>
              ⟨some [("demo_20240102_090000.zip", ([] : List ZipEntry)),
                     ("demo_20240101_120000.zip", ([ZipEntry.dir ["a"]] : List ZipEntry))],
               none⟩) =
          (.ok (mkSnapName "demo" t),
           applyArchive ⟨[], []⟩ arch, some ⟨"demo", "id1", "/usb"⟩) :=
  restore_selects_most_recent "/h" "/usb" (some ⟨"demo", "id1", "/usb"⟩)
    (some ⟨"demo", "id1", "/usb"⟩) none ⟨[], []⟩
    (fun _ =>
      ⟨some [("demo_20240102_090000.zip", ([] : List ZipEntry)),
             ("demo_20240101_120000.zip", ([ZipEntry.dir ["a"]] : List ZipEntry))],
       none⟩)
    [("demo_20240102_090000.zip", ([] : List ZipEntry)),
     ("demo_20240101_120000.zip", ([ZipEntry.dir ["a"]] : List ZipEntry))]
    "demo" ["20240102_090000", "20240101_120000"]
    rfl rfl (by decide) (by decide) (by decide)

/-! ## Lemmas about path resolution and the command layer -/

theorem lookup_none_of_not_mem_fst {β : Type} {l : List (String × β)} {a : String}
    (h : a ∉ l.map Prod.fst) : List.lookup a l = none := by
  induction l with
  | nil => rfl
  | cons e t ih =>
    have hne : a ≠ e.1 := fun h0 => h (by simp [h0])
    have hmem : a ∉ t.map Prod.fst := fun hm => h (by simp [hm])
    have hbeq : (a == e.1) = false := beq_eq_false_iff_ne.mpr hne
    simp [List.lookup, hbeq, ih hmem]

theorem mem_copySnap_self {l : List (String × List ZipEntry)} {name : String}
    {arch a : List ZipEntry} :
    (name, a) ∈ copySnap l name arch ↔ a = arch := by
  simp [copySnap, List.mem_filter]

theorem get_usb_path_snd (cwd : String) (c : Config) (provided : Option String) :
    (get_usb_path cwd (some c) provided).2 =
      some { c with usb_path := if truthy provided
        then abspath cwd (provided.getD "") else c.usb_path } := by
  unfold get_usb_path
  by_cases ht : truthy provided = true
  · simp [ht]
  · have hf : truthy provided = false := by
      revert ht; cases truthy provided <;> simp
    by_cases h : c.usb_path = ""
    · simp [hf, h]
      rw [← h]
    · simp [hf, h]

theorem get_usb_path_ok (cwd : String) (c : Config) (provided : Option String)
    (hok : truthy provided = true ∨ c.usb_path ≠ "") :
    ∃ up, get_usb_path cwd (some c) provided =
      (.ok up, some { c with usb_path := up }) := by
  unfold get_usb_path
  by_cases ht : truthy provided = true
  · exact ⟨abspath cwd (provided.getD ""), by simp [ht]⟩
  · have hf : truthy provided = false := by
      revert ht; cases truthy provided <;> simp
    rcases hok with h | h
    · exact absurd h ht
    · refine ⟨c.usb_path, ?_⟩
      have hcc : ({ c with usb_path := c.usb_path } : Config) = c := rfl
      simp [hf, h, hcc]

/-- A successful `backup` in one equation: the produced name, the stored
config, the copy into the external snapshot directory and the appended
history entry. -/
theorem backup_ok (cwd msg now : String) (rootAbs : Path) (c : Config)
    (provided : Option String) (proj : FS) (usb : UsbState) (up : String)
    (hup : get_usb_path cwd (some c) provided = (.ok up, some { c with usb_path := up })) :
    backup cwd msg now rootAbs (some c) provided proj usb =
      (.ok (mkSnapName c.project_name now), some { c with usb_path := up },
       { snapshots := some (copySnap (usb.snapshots.getD [])
           (mkSnapName c.project_name now) (createArchive rootAbs proj)),
         history := some ((usb.history.getD []) ++
           [⟨mkSnapName c.project_name now, msg, now⟩]) }) := by
  unfold backup
  simp only [hup]

theorem backup_config_out (cwd msg now : String) (rootAbs : Path)
    (cfg : Option Config) (provided : Option String) (proj : FS) (usb : UsbState) :
    (backup cwd msg now rootAbs cfg provided proj usb).2.1 =
      (get_usb_path cwd cfg provided).2 := by
  unfold backup
  rcases h : get_usb_path cwd cfg provided with ⟨r, st⟩
  cases r with
  | error e => simp [h]
  | ok up =>
    cases st with
    | none => simp [h]
    | some c => simp [h]

theorem restore_config_out (cwd : String) (cfg : Option Config)
    (provided : Option String) (proj : FS) (usbAt : String → UsbState) :
    (restore cwd cfg provided proj usbAt).2.2 =
      (get_usb_path cwd cfg provided).2 := by
  unfold restore
  rcases h : get_usb_path cwd cfg provided with ⟨r, st⟩
  cases r with
  | error e => simp [h]
  | ok up =>
    simp only [h]
    cases hs : (usbAt up).snapshots with
    | none => rfl
    | some entries =>
      dsimp only
      cases hsel : selectLatest (entries.map Prod.fst) with
      | none => rfl
      | some latest =>
        dsimp only
        cases hlk : List.lookup latest entries with
        | none => rfl
        | some arch => rfl

theorem downgrade_config_out (cwd snap : String) (cfg : Option Config)
    (provided : Option String) (proj : FS) (usbAt : String → UsbState) :
    (downgrade cwd cfg provided snap proj usbAt).2.2 =
      (get_usb_path cwd cfg provided).2 := by
  unfold downgrade
  rcases h : get_usb_path cwd cfg provided with ⟨r, st⟩
  cases r with
  | error e => simp [h]
  | ok up =>
    simp only [h]
    cases hlk : List.lookup snap ((usbAt up).snapshots.getD []) with
    | none => rfl
    | some arch => rfl
theorem embeddedTimestamp_mkSnapName (proj now : String) (h : now.length = 15) :
    embeddedTimestamp proj (mkSnapName proj now) = now := by
  unfold embeddedTimestamp mkSnapName
  have h1 : (proj ++ "_" ++ now ++ ".zip").data
      = (proj.data ++ "_".data) ++ (now.data ++ ".zip".data) := by
    rw [String.data_append, String.data_append, String.data_append,
      List.append_assoc]
  rw [h1]
  have hp : proj.length = proj.data.length := rfl
  have hu : "_".data.length = 1 := rfl
  have h2 : proj.length + 1 = (proj.data ++ "_".data).length := by
    rw [List.length_append, hu, hp]
  rw [h2, List.drop_left]
  have h3 : now.data.length = 15 := h
  rw [← h3, List.take_left]

/-- **C4, counterexample.** The claim "if an explicit path argument is
given, its absolute form is stored into the config's usb_path field and
returned" fails for the explicit argument `""`: Python's
`if provided_path:` treats the empty string as absent, so the remembered
path is returned instead of the absolute form of the argument, and
nothing is stored. -/
theorem get_usb_path_empty_arg_cex :
    get_usb_path "/home/u" (some ⟨"n", "i", "/old"⟩) (some "") =
      (.ok "/old", some ⟨"n", "i", "/old"⟩) ∧
    abspath "/home/u" "" ≠ "/old" :=
  ⟨rfl, by decide⟩

/-- **C4, amended.** On an uninitialized project, path resolution fails
with the "not initialized" error before anything else.  On an
initialized project: a *non-empty* explicit path argument is converted
to its absolute form, stored into the config's usb_path field, and
returned; with no argument — or with the empty-string argument, which
Python truthiness treats as absent — the previously remembered path is
returned, and if that is unset the "no external path configured" error
is raised. -/
theorem get_usb_path_cases (cwd : String) (c : Config) (p : String) :
    (∀ q : Option String, get_usb_path cwd none q = (.error .notInitialized, none)) ∧
    (p ≠ "" → get_usb_path cwd (some c) (some p) =
      (.ok (abspath cwd p), some { c with usb_path := abspath cwd p })) ∧
    (get_usb_path cwd (some c) none =
      if c.usb_path = "" then (.error .noUsbConfigured, some c)
      else (.ok c.usb_path, some c)) ∧
    (get_usb_path cwd (some c) (some "") =
      if c.usb_path = "" then (.error .noUsbConfigured, some c)
      else (.ok c.usb_path, some c)) := by
  refine ⟨fun q => rfl, ?_, ?_, ?_⟩
  · intro hp
    unfold get_usb_path
    simp [truthy, hp]
  · unfold get_usb_path
    by_cases h : c.usb_path = "" <;> simp [truthy, h]
  · unfold get_usb_path
    by_cases h : c.usb_path = "" <;> simp [truthy, h]

/-- Witness for the amended C4: a non-empty relative argument is made
absolute and stored. -/
theorem get_usb_path_cases_witness :
    get_usb_path "/h" (some ⟨"n", "i", ""⟩) (some "usb") =
      (.ok (abspath "/h" "usb"), some ⟨"n", "i", abspath "/h" "usb"⟩) :=
  (get_usb_path_cases "/h" ⟨"n", "i", ""⟩ "usb").2.1 (by decide)

/-- **C5.** Whenever the external path resolves but the external
snapshot directory does not exist or is empty, `restore` fails with the
`NoSnapshotsFound` error and performs no extraction: the project tree is
returned unchanged. -/
theorem restore_no_snapshots (cwd up : String) (cfg st : Option Config)
    (provided : Option String) (proj : FS) (usbAt : String → UsbState)
    (hres : get_usb_path cwd cfg provided = (.ok up, st))
    (hempty : (usbAt up).snapshots = none ∨ (usbAt up).snapshots = some []) :
    restore cwd cfg provided proj usbAt = (.error .noSnapshotsFound, proj, st) := by
  unfold restore
  simp only [hres]
  rcases hempty with h | h
  · rw [h]
  · rw [h]; rfl

/-- Witness for C5: a missing snapshot directory makes restore fail and
leave the tree `⟨[["d"]], []⟩` as it was. -/
theorem restore_no_snapshots_witness :
    restore "/h" (some ⟨"n", "i", "/usb"⟩) none ⟨[["d"]], []⟩ (fun _ => ⟨none, none⟩) =
      (.error .noSnapshotsFound, ⟨[["d"]], []⟩, some ⟨"n", "i", "/usb"⟩) :=
  restore_no_snapshots "/h" "/usb" (some ⟨"n", "i", "/usb"⟩) (some ⟨"n", "i", "/usb"⟩)
    none ⟨[["d"]], []⟩ (fun _ => ⟨none, none⟩) rfl (Or.inl rfl)

/-- **C6.** When the requested snapshot filename does not name an entry
of the external snapshot directory, `downgrade` fails with the
`SnapshotNotFound` error carrying that name and leaves the project tree
completely untouched. -/
theorem downgrade_not_found (cwd up snap : String) (cfg st : Option Config)
    (provided : Option String) (proj : FS) (usbAt : String → UsbState)
    (hres : get_usb_path cwd cfg provided = (.ok up, st))
    (hsnap : snap ∉ ((usbAt up).snapshots.getD []).map Prod.fst) :
    downgrade cwd cfg provided snap proj usbAt =
      (.error (.snapshotNotFound snap), proj, st) := by
  have hlk := lookup_none_of_not_mem_fst hsnap
  unfold downgrade
  simp only [hres]
  rw [hlk]

/-- Witness for C6: asking for a name that is not among the stored
snapshots errors out and keeps the tree. -/
theorem downgrade_not_found_witness :
    downgrade "/h" (some ⟨"n", "i", "/usb"⟩) none "nope.zip" ⟨[["d"]], [(["f"], [7])]⟩
        (fun _ => ⟨some [("n_20240101_000000.zip", [])], none⟩) =
      (.error (.snapshotNotFound "nope.zip"), ⟨[["d"]], [(["f"], [7])]⟩,
       some ⟨"n", "i", "/usb"⟩) :=
  downgrade_not_found "/h" "/usb" "nope.zip" (some ⟨"n", "i", "/usb"⟩)
    (some ⟨"n", "i", "/usb"⟩) none ⟨[["d"]], [(["f"], [7])]⟩
    (fun _ => ⟨some [("n_20240101_000000.zip", [])], none⟩) rfl (by decide)

/-- **C7.** `init` on an already-initialized directory (metadata
directory present) is a no-op that reports "already initialized" and
leaves the whole on-disk state — in particular the config — identical;
on a fresh directory it creates the metadata and snapshots directories
and writes a config whose project name is the directory's base name,
whose identifier is the freshly generated (non-empty) one, and whose
external path is empty. -/
theorem init_spec (baseName freshId : String) (st : ProjMeta) (hid : freshId ≠ "") :
    (st.syncDirExists = true → init baseName freshId st = (st, .alreadyInitialized)) ∧
    (st.syncDirExists = false →
      init baseName freshId st =
        ({ syncDirExists := true, snapshotsDirExists := true,
           config := some ⟨baseName, freshId, ""⟩ }, .created baseName freshId) ∧
      freshId ≠ "") := by
  constructor
  · intro h
    simp [init, h]
  · intro h
    exact ⟨by simp [init, h], hid⟩

/-- Witness for C7: a second `init` after a first one is a no-op. -/
theorem init_spec_witness :
    init "proj" "id-2" ⟨true, true, some ⟨"proj", "id-1", ""⟩⟩ =
      (⟨true, true, some ⟨"proj", "id-1", ""⟩⟩, .alreadyInitialized) ∧
    init "proj" "id-1" ⟨false, false, none⟩ =
      (⟨true, true, some ⟨"proj", "id-1", ""⟩⟩, .created "proj" "id-1") :=
  ⟨(init_spec "proj" "id-2" ⟨true, true, some ⟨"proj", "id-1", ""⟩⟩ (by decide)).1 rfl,
   ((init_spec "proj" "id-1" ⟨false, false, none⟩ (by decide)).2 rfl).1⟩

/-- **C8.** A successful `backup` (external path resolvable) appends
exactly one entry `{snapshot, message, timestamp}` at the end of the
history array — a missing history file being read as the empty array —
leaving every previously recorded entry unchanged, and the entry's
timestamp equals the timestamp embedded in the snapshot filename. -/
theorem backup_appends_history (cwd msg now : String) (rootAbs : Path) (c : Config)
    (provided : Option String) (proj : FS) (usb : UsbState)
    (hok : truthy provided = true ∨ c.usb_path ≠ "")
    (hlen : now.length = 15) :
    (backup cwd msg now rootAbs (some c) provided proj usb).2.2.history =
      some ((usb.history.getD []) ++
        [⟨mkSnapName c.project_name now, msg, now⟩]) ∧
    embeddedTimestamp c.project_name (mkSnapName c.project_name now) = now := by
  obtain ⟨up, hup⟩ := get_usb_path_ok cwd c provided hok
  constructor
  · rw [backup_ok cwd msg now rootAbs c provided proj usb up hup]
  · exact embeddedTimestamp_mkSnapName _ _ hlen

/-- Witness for C8: backing up over an existing one-entry history file
appends the new entry after the old one. -/
theorem backup_appends_history_witness :
    (backup "/h" "second" "20240102_090000" ["r"] (some ⟨"demo", "i", "/usb"⟩) none
        ⟨[], []⟩
        ⟨none, some [⟨"demo_20240101_120000.zip", "first", "20240101_120000"⟩]⟩).2.2.history =
      some ([⟨"demo_20240101_120000.zip", "first", "20240101_120000"⟩] ++
        [⟨mkSnapName "demo" "20240102_090000", "second", "20240102_090000"⟩]) ∧
    embeddedTimestamp "demo" (mkSnapName "demo" "20240102_090000") = "20240102_090000" :=
  backup_appends_history "/h" "second" "20240102_090000" ["r"] ⟨"demo", "i", "/usb"⟩
    none ⟨[], []⟩
    ⟨none, some [⟨"demo_20240101_120000.zip", "first", "20240101_120000"⟩]⟩
    (Or.inr (by decide)) (by decide)

/-- **C9.** The snapshot filename is exactly
`{project_name}_{timestamp}.zip` built from the config's project name
and the current timestamp, so two backups of the same project within the
same second (same `now`) produce the same filename, and the second copy
overwrites the first on the external path: afterwards the only archive
stored under that name is the second one. -/
theorem backup_same_second_collision (cwd m1 m2 now : String) (rootAbs : Path)
    (c : Config) (proj1 proj2 : FS) (usb : UsbState)
    (husb : c.usb_path ≠ "") :
    ∃ st1 usb1 st2 usb2,
      backup cwd m1 now rootAbs (some c) none proj1 usb =
        (.ok (c.project_name ++ "_" ++ now ++ ".zip"), st1, usb1) ∧
      backup cwd m2 now rootAbs st1 none proj2 usb1 =
        (.ok (c.project_name ++ "_" ++ now ++ ".zip"), st2, usb2) ∧
      ∀ a, ((c.project_name ++ "_" ++ now ++ ".zip", a) ∈ usb2.snapshots.getD [] ↔
        a = createArchive rootAbs proj2) := by
  have hg : get_usb_path cwd (some c) none = (.ok c.usb_path, some c) := by
    unfold get_usb_path
    simp [truthy, husb]
  have hb1 := backup_ok cwd m1 now rootAbs c none proj1 usb c.usb_path hg
  have hb2 := backup_ok cwd m2 now rootAbs c none proj2
    { snapshots := some (copySnap (usb.snapshots.getD [])
        (mkSnapName c.project_name now) (createArchive rootAbs proj1)),
      history := some ((usb.history.getD []) ++
        [⟨mkSnapName c.project_name now, m1, now⟩]) }
    c.usb_path hg
  exact ⟨some c,
    { snapshots := some (copySnap (usb.snapshots.getD [])
        (mkSnapName c.project_name now) (createArchive rootAbs proj1)),
      history := some ((usb.history.getD []) ++
        [⟨mkSnapName c.project_name now, m1, now⟩]) },
    some c,
    { snapshots := some (copySnap (copySnap (usb.snapshots.getD [])
        (mkSnapName c.project_name now) (createArchive rootAbs proj1))
        (mkSnapName c.project_name now) (createArchive rootAbs proj2)),
      history := some (((usb.history.getD []) ++
        [⟨mkSnapName c.project_name now, m1, now⟩]) ++
        [⟨mkSnapName c.project_name now, m2, now⟩]) },
    hb1, hb2, fun _ => mem_copySnap_self⟩

/-- Witness for C9: two same-second backups of "demo" over an initially
empty external state leave exactly the second tree's archive stored
under the shared name. -/
theorem backup_same_second_collision_witness :
    ∃ st1 usb1 st2 usb2,
      backup "/h" "first" "20240101_120000" ["r"]
          (some ⟨"demo", "i", "/usb"⟩) none ⟨[["a"]], []⟩ ⟨none, none⟩ =
        (.ok ("demo" ++ "_" ++ "20240101_120000" ++ ".zip"), st1, usb1) ∧
      backup "/h" "second" "20240101_120000" ["r"] st1 none ⟨[], [(["f"], [1])]⟩ usb1 =
        (.ok ("demo" ++ "_" ++ "20240101_120000" ++ ".zip"), st2, usb2) ∧
      ∀ a, (("demo" ++ "_" ++ "20240101_120000" ++ ".zip", a) ∈ usb2.snapshots.getD [] ↔
        a = createArchive ["r"] ⟨[], [(["f"], [1])]⟩) :=
  backup_same_second_collision "/h" "first" "second" "20240101_120000" ["r"]
    ⟨"demo", "i", "/usb"⟩ ⟨[["a"]], []⟩ ⟨[], [(["f"], [1])]⟩ ⟨none, none⟩ (by decide)

/-- **C10.** No command invocation on an initialized project rewrites
the config's project name or identifier: with no explicit path argument
the stored config keeps exactly the loaded fields (usb_path included),
and with an explicit path argument only the usb_path field can change;
`init` on an initialized project leaves the stored config untouched. -/
theorem config_not_rewritten (cwd msg now snap base fid : String) (rootAbs : Path)
    (c : Config) (proj : FS) (usb : UsbState) (usbAt : String → UsbState)
    (provided : Option String) (st : ProjMeta) (hinit : st.syncDirExists = true) :
    (∃ u, (backup cwd msg now rootAbs (some c) provided proj usb).2.1 =
        some ⟨c.project_name, c.identifier, u⟩ ∧ (provided = none → u = c.usb_path)) ∧
    (∃ u, (restore cwd (some c) provided proj usbAt).2.2 =
        some ⟨c.project_name, c.identifier, u⟩ ∧ (provided = none → u = c.usb_path)) ∧
    (∃ u, (downgrade cwd (some c) provided snap proj usbAt).2.2 =
        some ⟨c.project_name, c.identifier, u⟩ ∧ (provided = none → u = c.usb_path)) ∧
    (init base fid st).1.config = st.config := by
  have hsnd := get_usb_path_snd cwd c provided
  have hnone : provided = none →
      (if truthy provided then abspath cwd (provided.getD "") else c.usb_path) =
        c.usb_path := by
    intro h
    subst h
    rfl
  refine ⟨⟨_, ?_, hnone⟩, ⟨_, ?_, hnone⟩, ⟨_, ?_, hnone⟩, ?_⟩
  · rw [backup_config_out, hsnd]
  · rw [restore_config_out, hsnd]
  · rw [downgrade_config_out, hsnd]
  · simp [init, hinit]

/-- Witness for C10: a backup carrying an explicit path argument changes
only the usb_path field; restore and downgrade without one keep the
config identical; a repeated init keeps the stored config. -/
theorem config_not_rewritten_witness :
    (∃ u, (backup "/h" "m" "20240101_120000" ["r"]
        (some ⟨"n", "i", "/old"⟩) (some "/new") ⟨[], []⟩ ⟨none, none⟩).2.1 =
        some ⟨"n", "i", u⟩ ∧ ((some "/new" : Option String) = none → u = "/old")) ∧
    (∃ u, (restore "/h" (some ⟨"n", "i", "/old"⟩) (some "/new") ⟨[], []⟩
        (fun _ => ⟨none, none⟩)).2.2 =
        some ⟨"n", "i", u⟩ ∧ ((some "/new" : Option String) = none → u = "/old")) ∧
    (∃ u, (downgrade "/h" (some ⟨"n", "i", "/old"⟩) (some "/new") "s.zip" ⟨[], []⟩
        (fun _ => ⟨none, none⟩)).2.2 =
        some ⟨"n", "i", u⟩ ∧ ((some "/new" : Option String) = none → u = "/old")) ∧
    (init "base" "fid" ⟨true, false, some ⟨"n", "i", "/old"⟩⟩).1.config =
      some ⟨"n", "i", "/old"⟩ :=
  config_not_rewritten "/h" "m" "20240101_120000" "s.zip" "base" "fid" ["r"]
    ⟨"n", "i", "/old"⟩ ⟨[], []⟩ ⟨none, none⟩ (fun _ => ⟨none, none⟩)
    (some "/new") ⟨true, false, some ⟨"n", "i", "/old"⟩⟩ rfl

end Synu
